import Mathlib

/-!
Shallow embedding of the background job processor of `internal/jobs/jobs.go`
(package `jobs`), backed by the `jobs` table of `internal/db/schema.sql`.

The job table is modelled as a `List Job` in insertion (rowid) order, which is
the order SQLite returns rows with equal `(status, scheduled_at)` index keys.
Timestamps are integers (seconds).  A handler `func(payload string) error` is
modelled as `String → Option String` (`none` = nil error, `some msg` = error);
the handler map of the processor is `String → Option Handler`.
The `error` column is nullable (`error TEXT`, no default) and the enqueue
INSERTs leave it NULL, while the lease query scans it into a plain Go
`string`; `database/sql` fails such a Scan (converting NULL to string is
unsupported), aborting the tick.  This is modelled by `Job.error : Option
String` (`none` = NULL) and a scan gate in `leaseNextReady`.  Store-level
I/O failures and JSON marshalling failures are modelled where a property
depends on them: `retryJob` takes the result of its `SELECT attempts`
re-read as an `Option Nat` (`none` = the `Scan` failed; the Go code ignores
that error and leaves `attempts` at its zero value), and the enqueue
operations take the `json.Marshal` result as an `Except String String`.
-/

namespace JobsSpec

/-- A row of the `jobs` table (schema.sql): `status TEXT` defaults to
`'pending'`, `attempts INTEGER DEFAULT 0`, `max_attempts INTEGER DEFAULT 3`,
`scheduled_at DATETIME DEFAULT CURRENT_TIMESTAMP`, `started_at`,
`completed_at` and `error` nullable. -/
structure Job where
  id : Nat
  type : String
  payload : String
  status : String
  attempts : Nat
  maxAttempts : Nat
  scheduledAt : Int
  startedAt : Option Int
  completedAt : Option Int
  error : Option String
  deriving DecidableEq, Repr

/-- `type JobHandler func(payload string) error`. -/
def Handler : Type := String → Option String

/-- The registered handler map `jp.handlers`, keyed by job type. -/
def Handlers : Type := String → Option Handler

/-- `status = 'pending' AND scheduled_at <= CURRENT_TIMESTAMP` —
the WHERE clause of the lease query in `processNextJob`. -/
def isReady (now : Int) (j : Job) : Bool :=
  j.status == "pending" && decide (j.scheduledAt ≤ now)

/-- The lease query of `processNextJob`:
`SELECT ... FROM jobs WHERE status = 'pending' AND scheduled_at <=
CURRENT_TIMESTAMP ORDER BY scheduled_at ASC LIMIT 1`.
Rows are scanned in insertion (rowid) order, so among equal `scheduled_at`
the earliest-inserted row is returned. -/
def selectNext (now : Int) : List Job → Option Job
  | [] => none
  | j :: rest =>
    match selectNext now rest with
    | none => if isReady now j then some j else none
    | some b =>
      if isReady now j then
        if b.scheduledAt < j.scheduledAt then some b else some j
      else some b

/-- `UPDATE jobs SET ... WHERE id = ?`: applies `f` to every row whose `id`
matches (unique in practice: `id` is the PRIMARY KEY). -/
def updateWhere (db : List Job) (jobID : Nat) (f : Job → Job) : List Job :=
  db.map fun j => if j.id = jobID then f j else j

/-- The lease update of `processNextJob`:
`UPDATE jobs SET status = 'running', started_at = ?, attempts = attempts + 1
WHERE id = ?`. -/
def leaseStamp (now : Int) (j : Job) : Job :=
  { j with status := "running", startedAt := some now, attempts := j.attempts + 1 }

/-- Outcome of the select-scan-and-flip stage of `processNextJob`:
`noJob` when the query hit `sql.ErrNoRows` (not an error), `scanError` when
`Scan` failed, `leased` with the record as read (attempts not yet
incremented in the returned copy, exactly as the Go `job` variable) and the
updated table. -/
inductive TickResult
  | noJob
  | scanError
  | leased (job : Job) (db1 : List Job)
  deriving DecidableEq, Repr

/-- The transactional select-and-flip of `processNextJob` (BEGIN … COMMIT).
The row is scanned before the update: `id, type, payload, status, attempts,
max_attempts, scheduled_at` are non-null by schema or default, `started_at`
and `completed_at` are read through `sql.NullTime`, but `error` goes into a
plain Go `string`, so a NULL `error` column — which both enqueue INSERTs
produce — fails the `Scan` (converting NULL to string is unsupported) and
the tick aborts inside the transaction with nothing written. -/
def leaseNextReady (db : List Job) (now : Int) : TickResult :=
  match selectNext now db with
  | none => TickResult.noJob
  | some j =>
    if j.error.isSome then
      TickResult.leased j (updateWhere db j.id (leaseStamp now))
    else
      TickResult.scanError

/-- The row update of `markJobCompleted`. -/
def completeStamp (now : Int) (j : Job) : Job :=
  { j with status := "completed", completedAt := some now }

/-- The row update of `markJobFailed`. -/
def failStamp (errMsg : String) (now : Int) (j : Job) : Job :=
  { j with status := "failed", completedAt := some now, error := some errMsg }

/-- The row update of `retryJob`. -/
def retryStamp (errMsg : String) (schedAt : Int) (j : Job) : Job :=
  { j with status := "pending", scheduledAt := schedAt, error := some errMsg }

/-- `markJobCompleted`: `UPDATE jobs SET status = 'completed',
completed_at = CURRENT_TIMESTAMP WHERE id = ?`. -/
def markJobCompleted (db : List Job) (jobID : Nat) (now : Int) : List Job :=
  updateWhere db jobID (completeStamp now)

/-- `markJobFailed`: `UPDATE jobs SET status = 'failed',
completed_at = CURRENT_TIMESTAMP, error = ? WHERE id = ?`. -/
def markJobFailed (db : List Job) (jobID : Nat) (errMsg : String) (now : Int) :
    List Job :=
  updateWhere db jobID (failStamp errMsg now)

/-- `backoffMinutes := []int{1, 5, 30}` in `retryJob`. -/
def backoffMinutes : List Nat := [1, 5, 30]

/-- Go slice indexing `xs[i]` with an `int` index: `none` models the
index-out-of-range panic (negative or too large index). -/
def goIndex (xs : List Nat) (i : Int) : Option Nat :=
  if 0 ≤ i then xs.get? i.toNat else none

/-- The delay computation of `retryJob`:
`if attempts <= len(backoffMinutes) { delay = backoffMinutes[attempts-1] }
else { delay = 30 * time.Minute }`, in seconds.  `none` models the Go
index-out-of-range panic of `backoffMinutes[attempts-1]` when
`attempts = 0`. -/
def retryDelaySeconds (attempts : Nat) : Option Int :=
  if attempts ≤ backoffMinutes.length then
    match goIndex backoffMinutes ((attempts : Int) - 1) with
    | none => none
    | some m => some ((m : Int) * 60)
  else
    some (30 * 60)

/-- `retryJob`.  `readAttempts` is the result of the
`SELECT attempts FROM jobs WHERE id = ?` re-read; the Go code ignores the
`Scan` error, so a failed read leaves the local `attempts` at its zero
value `0` and the subsequent `backoffMinutes[attempts-1]` panics — modelled
as `none`.  On success it runs `UPDATE jobs SET status = 'pending',
scheduled_at = ?, error = ? WHERE id = ?` with `scheduled_at = now + delay`. -/
def retryJob (db : List Job) (jobID : Nat) (errMsg : String)
    (readAttempts : Option Nat) (now : Int) : Option (List Job) :=
  match retryDelaySeconds (readAttempts.getD 0) with
  | none => none
  | some d => some (updateWhere db jobID (retryStamp errMsg (now + d)))

/-- The `SELECT attempts FROM jobs WHERE id = ?` re-read of `retryJob`, when
the store read succeeds. -/
def readAttempts (db : List Job) (jobID : Nat) : Option Nat :=
  (db.find? fun j => j.id == jobID).map Job.attempts

/-- The post-commit part of `processNextJob`: look up the handler, invoke it,
and record the outcome.  `job` is the record as read before the lease update
(so `job.attempts` is the pre-increment count, and the Go code compares
`job.Attempts+1 >= job.MaxAttempts`). -/
def dispatch (handlers : Handlers) (job : Job) (db1 : List Job) (now : Int) :
    List Job :=
  match handlers job.type with
  | none =>
    markJobFailed db1 job.id ("no handler registered for job type: " ++ job.type) now
  | some h =>
    match h job.payload with
    | none => markJobCompleted db1 job.id now
    | some errMsg =>
      if job.maxAttempts ≤ job.attempts + 1 then
        markJobFailed db1 job.id errMsg now
      else
        match retryJob db1 job.id errMsg (readAttempts db1 job.id) now with
        | some db2 => db2
        | none => db1

/-- One poll tick: `processNextJob`.  Lease the next ready job in one
transaction, then dispatch; when no row matches, or the Scan of the
selected row fails (NULL `error` column), the tick writes nothing. -/
def processNextJob (handlers : Handlers) (db : List Job) (now : Int) : List Job :=
  match leaseNextReady db now with
  | TickResult.noJob => db
  | TickResult.scanError => db
  | TickResult.leased job db1 => dispatch handlers job db1 now

/-- A fresh row as inserted by `INSERT INTO jobs (type, payload[, scheduled_at])`
with the schema defaults (`status 'pending'`, `attempts 0`, `max_attempts 3`). -/
def freshJob (nextId : Nat) (jobType payloadJSON : String) (schedAt : Int) : Job :=
  { id := nextId, type := jobType, payload := payloadJSON, status := "pending",
    attempts := 0, maxAttempts := 3, scheduledAt := schedAt,
    startedAt := none, completedAt := none, error := none }

/-- `EnqueueJob`: marshal the payload; on a marshalling error return it and
touch nothing; otherwise insert a row with default `scheduled_at = now`.
The pair is (returned error, resulting table). -/
def EnqueueJob (db : List Job) (nextId : Nat) (jobType : String)
    (payloadJSON : Except String String) (now : Int) :
    Option String × List Job :=
  match payloadJSON with
  | .error e => (some e, db)
  | .ok s => (none, db ++ [freshJob nextId jobType s now])

/-- `EnqueueDelayedJob`: same as `EnqueueJob` but with
`scheduled_at = time.Now().Add(delay)`. -/
def EnqueueDelayedJob (db : List Job) (nextId : Nat) (jobType : String)
    (payloadJSON : Except String String) (delay now : Int) :
    Option String × List Job :=
  match payloadJSON with
  | .error e => (some e, db)
  | .ok s => (none, db ++ [freshJob nextId jobType s (now + delay)])

/-- A run of poll ticks at the given times (earliest applied first). -/
def runSchedule (handlers : Handlers) (db : List Job) : List Int → List Job
  | [] => db
  | t :: ts => runSchedule handlers (processNextJob handlers db t) ts

/-- `k` poll ticks spaced 1800 s (the maximal backoff delay) apart starting at
`t0`: tick `i` (0-based) runs at `t0 + 1800*i`. -/
def runTicks (handlers : Handlers) (db : List Job) (t0 : Int) : Nat → List Job
  | 0 => db
  | k + 1 => processNextJob handlers (runTicks handlers db t0 k) (t0 + 1800 * k)

/-! ### The poll loop and `Stop`

`processJobs` is `for jp.running { select { case <-ticker.C:
jp.processNextJob() } }`; `Stop` sets `jp.running = false`.  The loop is
modelled as a small-step system: `blocked` = waiting in the `select`,
`inTick` = the ticker case has fired and `processNextJob` has been entered
but its lease has not happened yet, `checkCond` = about to re-evaluate
`jp.running`.  `finishTick` performs the whole `processNextJob` body (lease,
handler, state write) atomically — the loop never preempts it. -/

inductive LoopPC
  | checkCond
  | blocked
  | inTick
  | exited
  deriving DecidableEq, Repr

structure LoopState where
  running : Bool
  pc : LoopPC
  tickNow : Int
  db : List Job
  ticksDone : Nat
  deriving DecidableEq, Repr

inductive LoopEvent
  | stopCall
  | tickFire (now : Int)
  | finishTick
  | loopCheck
  deriving DecidableEq, Repr

/-- One interleaving step of the poll loop / `Stop`. -/
def loopStep (handlers : Handlers) (s : LoopState) : LoopEvent → LoopState
  | .stopCall => { s with running := false }
  | .tickFire now =>
    if s.pc = .blocked then { s with pc := .inTick, tickNow := now } else s
  | .finishTick =>
    if s.pc = .inTick then
      { s with pc := .checkCond,
               db := processNextJob handlers s.db s.tickNow,
               ticksDone := s.ticksDone + 1 }
    else s
  | .loopCheck =>
    if s.pc = .checkCond then
      if s.running then { s with pc := .blocked } else { s with pc := .exited }
    else s

/-- Run the loop model over a sequence of interleaving events. -/
def runLoop (handlers : Handlers) (s : LoopState) : List LoopEvent → LoopState
  | [] => s
  | e :: es => runLoop handlers (loopStep handlers s e) es

/-- The retry delay in seconds as a function of the (already incremented)
attempts count, as `retryJob` computes it on a successful re-read. -/
def retryDelay (a : Nat) : Int :=
  if a = 1 then 60 else if a = 2 then 300 else 1800

/-! ### Lemmas about the lease query -/

theorem selectNext_eq_none_iff (now : Int) (db : List Job) :
    selectNext now db = none ↔ ∀ j ∈ db, isReady now j = false := by
  induction db with
  | nil => simp [selectNext]
  | cons j rest ih =>
    simp only [selectNext]
    cases hrest : selectNext now rest with
    | none =>
      by_cases hj : isReady now j
      · simp [hj, ih.mp hrest]
      · simp only [Bool.not_eq_true] at hj
        simp [hj, List.forall_mem_cons]
        exact ih.mp hrest
    | some b =>
      have hb : ¬ ∀ k ∈ rest, isReady now k = false := by
        intro hall
        rw [ih.mpr hall] at hrest
        exact Option.noConfusion hrest
      by_cases hj : isReady now j
      · constructor
        · intro h
          by_cases hlt : b.scheduledAt < j.scheduledAt <;> simp [hj, hlt] at h
        · intro h
          exact absurd (h j (List.mem_cons_self j rest)) (by simp [hj])
      · simp only [Bool.not_eq_true] at hj
        simp only [hj, List.forall_mem_cons]
        constructor
        · intro h; exact Option.noConfusion h
        · intro h; exact absurd h.2 hb

theorem selectNext_mem {now : Int} {db : List Job} {b : Job}
    (h : selectNext now db = some b) : b ∈ db := by
  induction db with
  | nil => exact Option.noConfusion h
  | cons j rest ih =>
    simp only [selectNext] at h
    cases hrest : selectNext now rest with
    | none =>
      rw [hrest] at h
      by_cases hj : isReady now j
      · simp [hj] at h; simp [← h]
      · simp [hj] at h
    | some c =>
      rw [hrest] at h
      by_cases hj : isReady now j
      · by_cases hlt : c.scheduledAt < j.scheduledAt
        · simp only [hj, hlt, if_true] at h
          obtain rfl : c = b := Option.some.inj h
          exact List.mem_cons_of_mem j (ih hrest)
        · simp only [hj, hlt, if_true, if_false] at h
          obtain rfl : j = b := Option.some.inj h
          exact List.mem_cons_self _ _
      · simp only [hj, Bool.false_eq_true, if_false] at h
        obtain rfl : c = b := Option.some.inj h
        exact List.mem_cons_of_mem j (ih hrest)

theorem selectNext_isReady {now : Int} {db : List Job} {b : Job}
    (h : selectNext now db = some b) : isReady now b = true := by
  induction db with
  | nil => exact Option.noConfusion h
  | cons j rest ih =>
    simp only [selectNext] at h
    cases hrest : selectNext now rest with
    | none =>
      rw [hrest] at h
      by_cases hj : isReady now j
      · simp [hj] at h; rwa [← h]
      · simp [hj] at h
    | some c =>
      rw [hrest] at h
      by_cases hj : isReady now j
      · by_cases hlt : c.scheduledAt < j.scheduledAt
        · simp only [hj, hlt, if_true] at h
          obtain rfl : c = b := Option.some.inj h
          exact ih hrest
        · simp only [hj, hlt, if_true, if_false] at h
          obtain rfl : j = b := Option.some.inj h
          exact hj
      · simp only [hj, Bool.false_eq_true, if_false] at h
        obtain rfl : c = b := Option.some.inj h
        exact ih hrest

theorem selectNext_min {now : Int} {db : List Job} {b : Job}
    (h : selectNext now db = some b) :
    ∀ k ∈ db, isReady now k = true → b.scheduledAt ≤ k.scheduledAt := by
  induction db generalizing b with
  | nil => exact Option.noConfusion h
  | cons j rest ih =>
    intro k hk hkready
    simp only [selectNext] at h
    cases hrest : selectNext now rest with
    | none =>
      rw [hrest] at h
      by_cases hj : isReady now j
      · simp [hj] at h
        rcases List.mem_cons.mp hk with rfl | hk'
        · rw [h]
        · exact absurd hkready (by simp [(selectNext_eq_none_iff now rest).mp hrest k hk'])
      · simp [hj] at h
    | some c =>
      rw [hrest] at h
      by_cases hj : isReady now j
      · by_cases hlt : c.scheduledAt < j.scheduledAt
        · simp only [hj, hlt, if_true] at h
          obtain rfl : c = b := Option.some.inj h
          rcases List.mem_cons.mp hk with rfl | hk'
          · exact le_of_lt hlt
          · exact ih hrest k hk' hkready
        · simp only [hj, hlt, if_true, if_false] at h
          obtain rfl : j = b := Option.some.inj h
          rcases List.mem_cons.mp hk with rfl | hk'
          · exact le_refl _
          · exact le_trans (not_lt.mp hlt) (ih hrest k hk' hkready)
      · simp only [hj, Bool.false_eq_true, if_false] at h
        obtain rfl : c = b := Option.some.inj h
        rcases List.mem_cons.mp hk with rfl | hk'
        · exact absurd hkready (by simp [hj])
        · exact ih hrest k hk' hkready

/-- The selected row is the first, in insertion order, among the ready rows of
minimal `scheduled_at`: every ready row strictly before it has a strictly
later `scheduled_at`. -/
theorem selectNext_first {now : Int} {db : List Job} {b : Job}
    (h : selectNext now db = some b) :
    ∃ i, ∃ hi : i < db.length, db[i] = b ∧
      ∀ k, (hk : k < db.length) → k < i → isReady now db[k] = true →
        b.scheduledAt < db[k].scheduledAt := by
  induction db with
  | nil => exact Option.noConfusion h
  | cons j rest ih =>
    simp only [selectNext] at h
    cases hrest : selectNext now rest with
    | none =>
      rw [hrest] at h
      by_cases hj : isReady now j
      · simp [hj] at h
        exact ⟨0, by simp, by simpa using h, fun k hk hk0 _ => absurd hk0 (Nat.not_lt_zero k)⟩
      · simp [hj] at h
    | some c =>
      rw [hrest] at h
      by_cases hj : isReady now j
      · by_cases hlt : c.scheduledAt < j.scheduledAt
        · simp only [hj, hlt, if_true] at h
          obtain rfl : c = b := Option.some.inj h
          obtain ⟨i, hi, hget, hfirst⟩ := ih hrest
          refine ⟨i + 1, by simpa using Nat.succ_lt_succ hi, by simpa using hget, ?_⟩
          intro k hk hki hkready
          cases k with
          | zero =>
            simp only [List.getElem_cons_zero] at hkready ⊢
            exact hlt
          | succ k' =>
            simp only [List.getElem_cons_succ] at hkready ⊢
            exact hfirst k' (by omega) (by omega) hkready
        · simp only [hj, hlt, if_true, if_false] at h
          obtain rfl : j = b := Option.some.inj h
          exact ⟨0, by simp, by simp, fun k hk hk0 _ => absurd hk0 (Nat.not_lt_zero k)⟩
      · simp only [hj, Bool.false_eq_true, if_false] at h
        obtain rfl : c = b := Option.some.inj h
        obtain ⟨i, hi, hget, hfirst⟩ := ih hrest
        refine ⟨i + 1, by simpa using Nat.succ_lt_succ hi, by simpa using hget, ?_⟩
        intro k hk hki hkready
        cases k with
        | zero =>
          simp only [List.getElem_cons_zero] at hkready
          exact absurd hkready (by simp [hj])
        | succ k' =>
          simp only [List.getElem_cons_succ] at hkready ⊢
          exact hfirst k' (by omega) (by omega) hkready

/-! ### Lemmas about `UPDATE ... WHERE id = ?` -/

theorem updateWhere_length (db : List Job) (jobID : Nat) (f : Job → Job) :
    (updateWhere db jobID f).length = db.length := by
  simp [updateWhere]

theorem updateWhere_get (db : List Job) (jobID : Nat) (f : Job → Job)
    (i : Nat) (hi : i < db.length) (hi2 : i < (updateWhere db jobID f).length) :
    (updateWhere db jobID f).get ⟨i, hi2⟩ =
      if (db.get ⟨i, hi⟩).id = jobID then f (db.get ⟨i, hi⟩) else db.get ⟨i, hi⟩ := by
  simp [updateWhere, List.get_eq_getElem, List.getElem_map]

theorem mem_updateWhere_of_ne {db : List Job} {jobID : Nat} {f : Job → Job}
    {k : Job} (hk : k ∈ db) (hne : k.id ≠ jobID) : k ∈ updateWhere db jobID f := by
  unfold updateWhere
  have := List.mem_map_of_mem (fun j => if j.id = jobID then f j else j) hk
  simpa [hne] using this

theorem updateWhere_id (db : List Job) (jobID : Nat) :
    updateWhere db jobID (fun j => j) = db := by
  unfold updateWhere
  have h : ∀ a ∈ db, (if a.id = jobID then a else a) = a := by
    intro a _
    split <;> rfl
  rw [List.map_congr_left h]
  simp

theorem updateWhere_updateWhere {db : List Job} {jobID : Nat} {f g : Job → Job}
    (hg : ∀ x, (g x).id = x.id) :
    updateWhere (updateWhere db jobID g) jobID f =
      updateWhere db jobID fun j => f (g j) := by
  simp only [updateWhere, List.map_map]
  apply List.map_congr_left
  intro a _
  by_cases ha : a.id = jobID
  · simp [Function.comp, ha, hg a]
  · simp [Function.comp, ha]

theorem find?_updateWhere {db : List Job} {job : Job} {f : Job → Job}
    (hids : (db.map Job.id).Nodup) (hmem : job ∈ db)
    (hf : ∀ x, (f x).id = x.id) :
    (updateWhere db job.id f).find? (fun j => j.id == job.id) = some (f job) := by
  induction db with
  | nil => cases hmem
  | cons a rest ih =>
    simp only [List.map_cons, List.nodup_cons] at hids
    rcases List.mem_cons.mp hmem with rfl | hmem'
    · simp only [updateWhere, List.map_cons, if_true]
      rw [List.find?_cons_of_pos _ (by simp [hf])]
    · have hane : a.id ≠ job.id := by
        intro h
        exact hids.1 (h ▸ List.mem_map_of_mem Job.id hmem')
      simp only [updateWhere, List.map_cons, if_neg hane]
      rw [List.find?_cons_of_neg _ (by simp [hane])]
      simpa [updateWhere] using ih hids.2 hmem'

theorem readAttempts_after_lease {db : List Job} {job : Job} (now : Int)
    (hids : (db.map Job.id).Nodup) (hmem : job ∈ db) :
    readAttempts (updateWhere db job.id (leaseStamp now)) job.id =
      some (job.attempts + 1) := by
  unfold readAttempts
  rw [find?_updateWhere (f := leaseStamp now) hids hmem (fun x => rfl)]
  rfl

/-! ### Lemmas about `retryJob` -/

theorem retryDelaySeconds_eq {a : Nat} (ha : 1 ≤ a) :
    retryDelaySeconds a = some (retryDelay a) := by
  match a, ha with
  | 1, _ => rfl
  | 2, _ => rfl
  | 3, _ => rfl
  | (n + 4), _ =>
    unfold retryDelaySeconds
    rw [if_neg (by simp [backoffMinutes])]
    unfold retryDelay
    rw [if_neg (by omega), if_neg (by omega)]
    norm_num

theorem retryJob_some_eq {db : List Job} {jobID : Nat} {errMsg : String}
    {a : Nat} {now : Int} (ha : 1 ≤ a) :
    retryJob db jobID errMsg (some a) now =
      some (updateWhere db jobID (retryStamp errMsg (now + retryDelay a))) := by
  unfold retryJob
  rw [show (some a).getD 0 = a from rfl, retryDelaySeconds_eq ha]

theorem retryJob_shape {db : List Job} {jobID : Nat} {errMsg : String}
    {ra : Option Nat} {now : Int} {db2 : List Job}
    (h : retryJob db jobID errMsg ra now = some db2) :
    ∃ f : Job → Job, (∀ x, (f x).id = x.id) ∧ db2 = updateWhere db jobID f := by
  unfold retryJob at h
  split at h
  · exact Option.noConfusion h
  · refine ⟨_, ?_, (Option.some.inj h).symm⟩
    intro x
    rfl

/-! ### Shape of one tick: everything a tick writes targets the leased row -/

theorem processNextJob_eq_of_none {handlers : Handlers} {db : List Job} {now : Int}
    (h : selectNext now db = none) :
    processNextJob handlers db now = db := by
  simp [processNextJob, leaseNextReady, h]

/-- The Scan-abort path: the selected row has a NULL `error` column, so the
tick ends inside the rolled-back transaction with the table untouched. -/
theorem processNextJob_eq_of_scanError {handlers : Handlers} {db : List Job}
    {now : Int} {job : Job} (h : selectNext now db = some job)
    (herr : job.error = none) :
    processNextJob handlers db now = db := by
  simp [processNextJob, leaseNextReady, h, herr]

theorem leased_selectNext {db : List Job} {now : Int} {job : Job}
    {tbl : List Job}
    (h : leaseNextReady db now = TickResult.leased job tbl) :
    selectNext now db = some job ∧ job.error.isSome = true ∧
      tbl = updateWhere db job.id (leaseStamp now) := by
  unfold leaseNextReady at h
  split at h
  · exact TickResult.noConfusion h
  · rename_i b hsel
    split at h
    · rename_i hb
      obtain ⟨rfl, rfl⟩ := TickResult.leased.inj h
      exact ⟨hsel, hb, rfl⟩
    · exact TickResult.noConfusion h

theorem processNextJob_eq_dispatch {handlers : Handlers} {db : List Job}
    {now : Int} {job : Job} (h : selectNext now db = some job)
    (herr : job.error.isSome = true) :
    processNextJob handlers db now =
      dispatch handlers job (updateWhere db job.id (leaseStamp now)) now := by
  simp [processNextJob, leaseNextReady, h, herr]

theorem dispatch_shape (handlers : Handlers) (job : Job) (db1 : List Job)
    (now : Int) :
    ∃ f : Job → Job, (∀ x, (f x).id = x.id) ∧
      dispatch handlers job db1 now = updateWhere db1 job.id f := by
  cases hht : handlers job.type with
  | none =>
    refine ⟨failStamp ("no handler registered for job type: " ++ job.type) now, fun x => rfl, ?_⟩
    simp [dispatch, hht, markJobFailed]
  | some h =>
    cases hhp : h job.payload with
    | none =>
      refine ⟨completeStamp now, fun x => rfl, ?_⟩
      simp [dispatch, hht, hhp, markJobCompleted]
    | some errMsg =>
      by_cases hge : job.maxAttempts ≤ job.attempts + 1
      · refine ⟨failStamp errMsg now, fun x => rfl, ?_⟩
        simp [dispatch, hht, hhp, hge, markJobFailed]
      · cases hr : retryJob db1 job.id errMsg (readAttempts db1 job.id) now with
        | none =>
          refine ⟨fun j => j, fun x => rfl, ?_⟩
          simp [dispatch, hht, hhp, hge, hr, updateWhere_id]
        | some db2 =>
          obtain ⟨f, hf, rfl⟩ := retryJob_shape hr
          refine ⟨f, hf, ?_⟩
          simp [dispatch, hht, hhp, hge, hr]

theorem processNextJob_shape (handlers : Handlers) {db : List Job} {now : Int}
    {job : Job} (h : selectNext now db = some job)
    (herr : job.error.isSome = true) :
    ∃ f : Job → Job, (∀ x, (f x).id = x.id) ∧
      processNextJob handlers db now = updateWhere db job.id f := by
  rw [processNextJob_eq_dispatch h herr]
  obtain ⟨f, hf, heq⟩ := dispatch_shape handlers job (updateWhere db job.id (leaseStamp now)) now
  refine ⟨fun j => f (leaseStamp now j), fun x => (hf _).trans rfl, ?_⟩
  rw [heq, updateWhere_updateWhere (g := leaseStamp now) (fun x => rfl)]

theorem processNextJob_length (handlers : Handlers) (db : List Job) (now : Int) :
    (processNextJob handlers db now).length = db.length := by
  cases h : selectNext now db with
  | none => rw [processNextJob_eq_of_none h]
  | some job =>
    by_cases herr : job.error.isSome = true
    · obtain ⟨f, _, heq⟩ := processNextJob_shape handlers h herr
      rw [heq, updateWhere_length]
    · rw [processNextJob_eq_of_scanError h (Option.not_isSome_iff_eq_none.mp herr)]

theorem processNextJob_mem_of_ne {handlers : Handlers} {db : List Job}
    {now : Int} {job : Job} (h : selectNext now db = some job)
    {k : Job} (hk : k ∈ db) (hne : k.id ≠ job.id) :
    k ∈ processNextJob handlers db now := by
  by_cases herr : job.error.isSome = true
  · obtain ⟨f, _, heq⟩ := processNextJob_shape handlers h herr
    rw [heq]
    exact mem_updateWhere_of_ne hk hne
  · rw [processNextJob_eq_of_scanError h (Option.not_isSome_iff_eq_none.mp herr)]
    exact hk

theorem isReady_iff {now : Int} {j : Job} :
    isReady now j = true ↔ j.status = "pending" ∧ j.scheduledAt ≤ now := by
  simp [isReady]

theorem retryDelay_le (a : Nat) : retryDelay a ≤ 1800 := by
  unfold retryDelay
  split
  · norm_num
  · split
    · norm_num
    · exact le_refl _

/-- One tick on a one-row table whose pending ready job has a failing
handler: exhausted attempts give the failed row, remaining attempts give the
backoff-rescheduled row. -/
theorem failing_tick (handlers : Handlers) (h : Handler) (j : Job) (now : Int)
    (hh : handlers j.type = some h)
    (hst : j.status = "pending") (hsched : j.scheduledAt ≤ now)
    (herr : j.error.isSome = true)
    (e : String) (he : h j.payload = some e) :
    (j.maxAttempts ≤ j.attempts + 1 →
      processNextJob handlers [j] now = [failStamp e now (leaseStamp now j)]) ∧
    (j.attempts + 1 < j.maxAttempts →
      processNextJob handlers [j] now =
        [retryStamp e (now + retryDelay (j.attempts + 1)) (leaseStamp now j)]) := by
  have hsel : selectNext now [j] = some j := by
    simp [selectNext, isReady, hst, hsched]
  have hdb1 : updateWhere [j] j.id (leaseStamp now) = [leaseStamp now j] := by
    simp [updateWhere]
  constructor
  · intro hge
    rw [processNextJob_eq_dispatch hsel herr, hdb1]
    simp [dispatch, hh, he, hge, markJobFailed, updateWhere, leaseStamp]
  · intro hlt
    rw [processNextJob_eq_dispatch hsel herr, hdb1]
    have hread : readAttempts [leaseStamp now j] j.id = some (j.attempts + 1) := by
      simp [readAttempts, leaseStamp]
    have hstep : dispatch handlers j [leaseStamp now j] now =
        match retryJob [leaseStamp now j] j.id e
            (readAttempts [leaseStamp now j] j.id) now with
        | some db2 => db2
        | none => [leaseStamp now j] := by
      simp only [dispatch, hh, he, if_neg (Nat.not_le.mpr hlt)]
    rw [hstep, hread, retryJob_some_eq (Nat.le_add_left 1 j.attempts)]
    simp [updateWhere, leaseStamp]

/-- Invariant of repeated ticks over an always-failing one-row table whose
row is readable (non-NULL `error` column, so the lease Scan succeeds):
after `k ≤ max_attempts` ticks the single row has `attempts = k`; before
the last tick it is pending, readable and ready for the next tick, at `k =
max_attempts` it is failed.  This is the intended retry ladder; rows the
enqueues create are not readable (NULL `error`) and never enter it. -/
theorem runTicks_failing (handlers : Handlers) (h : Handler) (j : Job)
    (t0 : Int)
    (hh : handlers j.type = some h)
    (hfail : ∀ p, (h p).isSome = true)
    (hst : j.status = "pending") (ha : j.attempts = 0) (hm : 1 ≤ j.maxAttempts)
    (herr : j.error.isSome = true)
    (hsched : j.scheduledAt ≤ t0) :
    ∀ k, k ≤ j.maxAttempts →
      ∃ jk : Job, runTicks handlers [j] t0 k = [jk] ∧
        jk.type = j.type ∧ jk.payload = j.payload ∧
        jk.maxAttempts = j.maxAttempts ∧ jk.attempts = k ∧
        jk.error.isSome = true ∧
        (k < j.maxAttempts → jk.status = "pending" ∧ jk.scheduledAt ≤ t0 + 1800 * k) ∧
        (k = j.maxAttempts → jk.status = "failed") := by
  intro k
  induction k with
  | zero =>
    intro _
    refine ⟨j, rfl, rfl, rfl, rfl, ha, herr, fun _ => ⟨hst, by simpa using hsched⟩, ?_⟩
    intro h0
    omega
  | succ k ih =>
    intro hk1
    obtain ⟨jk, hrun, hty, hpl, hmax, hatt, herrk, hpend, -⟩ := ih (by omega)
    have hkm : k < j.maxAttempts := by omega
    obtain ⟨hstk, hschedk⟩ := hpend hkm
    have hhk : handlers jk.type = some h := by rw [hty]; exact hh
    obtain ⟨e, he⟩ := Option.isSome_iff_exists.mp (hfail jk.payload)
    have hft := failing_tick handlers h jk (t0 + 1800 * k) hhk hstk hschedk herrk e he
    have hstep : runTicks handlers [j] t0 (k + 1) =
        processNextJob handlers (runTicks handlers [j] t0 k) (t0 + 1800 * k) := rfl
    by_cases hterm : jk.maxAttempts ≤ jk.attempts + 1
    · refine ⟨failStamp e (t0 + 1800 * k) (leaseStamp (t0 + 1800 * k) jk),
        by rw [hstep, hrun, hft.1 hterm], hty, hpl, hmax, ?_, rfl, ?_, fun _ => rfl⟩
      · simp [failStamp, leaseStamp, hatt]
      · intro hlt
        rw [hmax, hatt] at hterm
        omega
    · push_neg at hterm
      refine ⟨retryStamp e ((t0 + 1800 * k) + retryDelay (jk.attempts + 1))
          (leaseStamp (t0 + 1800 * k) jk),
        by rw [hstep, hrun, hft.2 hterm], hty, hpl, hmax, ?_, rfl, ?_, ?_⟩
      · simp [retryStamp, leaseStamp, hatt]
      · intro _
        refine ⟨rfl, ?_⟩
        have hdle := retryDelay_le (jk.attempts + 1)
        show (t0 + 1800 * (k : Int)) + retryDelay (jk.attempts + 1) ≤ t0 + 1800 * ((k : Nat) + 1 : Nat)
        push_cast
        omega
      · intro habs
        rw [hmax, hatt] at hterm
        omega

theorem updateWhere_map_id {db : List Job} {jobID : Nat} {f : Job → Job}
    (hf : ∀ x, (f x).id = x.id) :
    (updateWhere db jobID f).map Job.id = db.map Job.id := by
  simp only [updateWhere, List.map_map]
  apply List.map_congr_left
  intro a _
  by_cases ha : a.id = jobID <;> simp [Function.comp, ha, hf]

theorem processNextJob_map_id (handlers : Handlers) (db : List Job) (now : Int) :
    (processNextJob handlers db now).map Job.id = db.map Job.id := by
  cases hsel : selectNext now db with
  | none => rw [processNextJob_eq_of_none hsel]
  | some job =>
    by_cases herr : job.error.isSome = true
    · obtain ⟨f, hf, heq⟩ := processNextJob_shape handlers hsel herr
      rw [heq, updateWhere_map_id hf]
    · rw [processNextJob_eq_of_scanError hsel (Option.not_isSome_iff_eq_none.mp herr)]

/-- A row already in a terminal status is untouched by a tick: the tick only
updates rows whose `id` equals the leased (pending) row, and with unique
`id`s a terminal row can never be that row. -/
theorem processNextJob_terminal_row (handlers : Handlers) (db : List Job)
    (now : Int) (hids : (db.map Job.id).Nodup)
    (i : Nat) (jt : Job) (hget : db[i]? = some jt)
    (hterm : jt.status = "completed" ∨ jt.status = "failed") :
    (processNextJob handlers db now)[i]? = some jt := by
  cases hsel : selectNext now db with
  | none => rw [processNextJob_eq_of_none hsel]; exact hget
  | some job =>
    by_cases herr : job.error.isSome = true
    case neg =>
      rw [processNextJob_eq_of_scanError hsel (Option.not_isSome_iff_eq_none.mp herr)]
      exact hget
    case pos =>
    obtain ⟨f, hf, heq⟩ := processNextJob_shape handlers hsel herr
    rw [heq]
    have hmap : (updateWhere db job.id f)[i]? =
        Option.map (fun x => if x.id = job.id then f x else x) db[i]? := by
      simp [updateWhere]
    rw [hmap, hget]
    have hne : jt.id ≠ job.id := by
      intro hid
      obtain ⟨q, hq, hqget⟩ := List.getElem_of_mem (selectNext_mem hsel)
      obtain ⟨hi, higet⟩ := List.getElem?_eq_some.mp hget
      have hmi : i < (db.map Job.id).length := by simpa using hi
      have hmq : q < (db.map Job.id).length := by simpa using hq
      have hgeq : (db.map Job.id).get ⟨i, hmi⟩ = (db.map Job.id).get ⟨q, hmq⟩ := by
        simp only [List.get_eq_getElem, List.getElem_map]
        rw [higet, hqget, hid]
      have hij : i = q := Fin.mk.inj_iff.mp (hids.get_inj_iff.mp hgeq)
      have hq2 : db[q]? = some job := List.getElem?_eq_some.mpr ⟨hq, hqget⟩
      rw [hij] at hget
      have hjj : jt = job := Option.some.inj (hget.symm.trans hq2)
      have hpend := (isReady_iff.mp (selectNext_isReady hsel)).1
      rw [← hjj] at hpend
      rcases hterm with hc | hc <;> rw [hc] at hpend <;> exact absurd hpend (by decide)
    simp [hne]

/-- C6: `completed` and `failed` are terminal.  A row in a terminal status
survives any run of poll ticks — each of which performs the processor
operations lease, complete, fail and retry — completely unchanged, at its
position: the transition table `pending → running → \x7bcompleted,
pending(retry), failed\x7d` admits no edge out of a terminal status. -/
theorem terminal_states_frozen (handlers : Handlers) (db : List Job)
    (times : List Int) (hids : (db.map Job.id).Nodup)
    (i : Nat) (jt : Job) (hget : db[i]? = some jt)
    (hterm : jt.status = "completed" ∨ jt.status = "failed") :
    (runSchedule handlers db times)[i]? = some jt := by
  induction times generalizing db with
  | nil => exact hget
  | cons t ts ih =>
    show (runSchedule handlers (processNextJob handlers db t) ts)[i]? = some jt
    apply ih
    · rw [processNextJob_map_id]
      exact hids
    · exact processNextJob_terminal_row handlers db t hids i jt hget hterm

/-- Witness for C6: a failed row and a completed row survive two ticks over
a table that also has a leasable pending row. -/
theorem terminal_states_frozen_witness :
    (runSchedule (fun _ => none) [{ id := 1, type := "t", payload := "p", status := "failed", attempts := 3, maxAttempts := 3, scheduledAt := 0, startedAt := some 0, completedAt := some 1, error := some "boom" }, { id := 2, type := "t", payload := "p", status := "pending", attempts := 0, maxAttempts := 3, scheduledAt := 0, startedAt := none, completedAt := none, error := none }, { id := 3, type := "t", payload := "p", status := "completed", attempts := 1, maxAttempts := 3, scheduledAt := 0, startedAt := some 0, completedAt := some 1, error := some "" }] [5, 6])[0]? =
      some { id := 1, type := "t", payload := "p", status := "failed", attempts := 3, maxAttempts := 3, scheduledAt := 0, startedAt := some 0, completedAt := some 1, error := some "boom" } := by
  exact terminal_states_frozen (fun _ => none) [{ id := 1, type := "t", payload := "p", status := "failed", attempts := 3, maxAttempts := 3, scheduledAt := 0, startedAt := some 0, completedAt := some 1, error := some "boom" }, { id := 2, type := "t", payload := "p", status := "pending", attempts := 0, maxAttempts := 3, scheduledAt := 0, startedAt := none, completedAt := none, error := none }, { id := 3, type := "t", payload := "p", status := "completed", attempts := 1, maxAttempts := 3, scheduledAt := 0, startedAt := some 0, completedAt := some 1, error := some "" }] [5, 6] (by decide) 0 _ rfl (Or.inr rfl)

/-! ### Claim theorems -/

/-- C1: the claim says that whenever a pending job with `scheduled_at <=
now` exists, the poll tick leases the single oldest one — flips it to
`'running'`, stamps `started_at`, increments `attempts` — in one
transaction.  The code refutes this for every row this subsystem creates:
`processNextJob` scans the `error` column into a plain Go `string`, both
enqueue INSERTs leave that column NULL, and `database/sql` fails such a
Scan (converting NULL to string is unsupported), so the tick takes the
`Failed to fetch job` return inside the rolled-back transaction — no lease,
no modification, on every tick.  Evaluated at a freshly enqueued ready
pending job: the row is selected by the query, yet the lease stage ends in
the Scan error and the tick changes nothing. -/
theorem tick_scan_abort_on_fresh_job :
    (freshJob 1 "t" "p" 0).status = "pending" ∧
    (freshJob 1 "t" "p" 0).scheduledAt ≤ 5 ∧
    (freshJob 1 "t" "p" 0).error = none ∧
    selectNext 5 [freshJob 1 "t" "p" 0] = some (freshJob 1 "t" "p" 0) ∧
    leaseNextReady [freshJob 1 "t" "p" 0] 5 = TickResult.scanError ∧
    processNextJob (fun _ => none) [freshJob 1 "t" "p" 0] 5 = [freshJob 1 "t" "p" 0] := by
  exact ⟨rfl, by decide, rfl, rfl, rfl, rfl⟩

/-- The intended retry ladder, conditional on the row being leasable (its
`error` column non-NULL, so the lease Scan succeeds — a state the enqueues
themselves never produce): an always-failing job is failed with `attempts =
max_attempts` after exactly `max_attempts` leases, one per tick, and later
ticks change nothing.  Supports the C2 code-bug verdict: the claim
describes exactly this behavior, which the NULL-error Scan slip makes
unreachable for subsystem-created rows. -/
theorem always_failing_reaches_failed (handlers : Handlers) (h : Handler)
    (j : Job) (t0 : Int)
    (hh : handlers j.type = some h)
    (hfail : ∀ p, (h p).isSome = true)
    (hst : j.status = "pending") (ha : j.attempts = 0) (hm : 1 ≤ j.maxAttempts)
    (herr : j.error.isSome = true)
    (hsched : j.scheduledAt ≤ t0) :
    (∃ jf, runTicks handlers [j] t0 j.maxAttempts = [jf] ∧
      jf.status = "failed" ∧ jf.attempts = j.maxAttempts) ∧
    (∀ k, k < j.maxAttempts → ∃ jk, runTicks handlers [j] t0 k = [jk] ∧
      jk.status = "pending" ∧ jk.attempts = k) ∧
    (∀ extra, runTicks handlers [j] t0 (j.maxAttempts + extra) =
      runTicks handlers [j] t0 j.maxAttempts) := by
  have main := runTicks_failing handlers h j t0 hh hfail hst ha hm herr hsched
  refine ⟨?_, ?_, ?_⟩
  · obtain ⟨jf, hrun, -, -, -, hatt, -, -, hfailst⟩ := main j.maxAttempts (le_refl _)
    exact ⟨jf, hrun, hfailst rfl, hatt⟩
  · intro k hk
    obtain ⟨jk, hrun, -, -, -, hatt, -, hpend, -⟩ := main k (le_of_lt hk)
    exact ⟨jk, hrun, (hpend hk).1, hatt⟩
  · intro extra
    induction extra with
    | zero => rfl
    | succ n ihn =>
      have hstep : runTicks handlers [j] t0 (j.maxAttempts + (n + 1)) =
          processNextJob handlers (runTicks handlers [j] t0 (j.maxAttempts + n))
            (t0 + 1800 * (j.maxAttempts + n)) := rfl
      rw [hstep, ihn]
      obtain ⟨jf, hrun, -, -, -, -, -, -, hfailst⟩ := main j.maxAttempts (le_refl _)
      rw [hrun]
      apply processNextJob_eq_of_none
      simp [selectNext, isReady, hfailst rfl]

/-- A table in which every row has a NULL `error` column (as both enqueue
INSERTs leave it) is never modified by a tick: either nothing is ready, or
the selected row's Scan fails and the tick aborts. -/
theorem processNextJob_no_readable (handlers : Handlers) (db : List Job)
    (now : Int) (hnull : ∀ x ∈ db, x.error = none) :
    processNextJob handlers db now = db := by
  cases hsel : selectNext now db with
  | none => exact processNextJob_eq_of_none hsel
  | some job =>
    exact processNextJob_eq_of_scanError hsel (hnull job (selectNext_mem hsel))

theorem runTicks_no_readable (handlers : Handlers) (db : List Job) (t0 : Int)
    (hnull : ∀ x ∈ db, x.error = none) :
    ∀ k, runTicks handlers db t0 k = db := by
  intro k
  induction k with
  | zero => rfl
  | succ n ih =>
    show processNextJob handlers (runTicks handlers db t0 n) (t0 + 1800 * n) = db
    rw [ih]
    exact processNextJob_no_readable handlers db (t0 + 1800 * n) hnull

/-- C2: the claim says an always-failing job reaches `'failed'` after
exactly `max_attempts` leases with `attempts = max_attempts`.  The code
refutes this for every job this subsystem enqueues: the row's `error`
column is NULL, the lease Scan into a plain Go `string` fails on every
tick, and the job is never leased even once — after any number of ticks it
is still the untouched pending row with `attempts = 0`, never reaching
`'failed'`.  (The intended ladder is `always_failing_reaches_failed`,
provable only for rows whose `error` column is already non-NULL.)
Evaluated at a freshly enqueued job with the schema defaults and an
always-failing registered handler. -/
theorem fresh_job_never_leased :
    (freshJob 1 "t" "p" 0).attempts = 0 ∧
    (freshJob 1 "t" "p" 0).status = "pending" ∧
    (freshJob 1 "t" "p" 0).error = none ∧
    ∀ k, runTicks (fun t => if t = "t" then some (fun _ => some "boom") else none)
        [freshJob 1 "t" "p" 0] 0 k = [freshJob 1 "t" "p" 0] := by
  refine ⟨rfl, rfl, rfl, ?_⟩
  apply runTicks_no_readable
  intro x hx
  rw [List.mem_singleton.mp hx]
  rfl

/-- The intended dequeue ordering, conditional on the rows being leasable
(`error` non-NULL, so the lease Scan succeeds): among ready pending rows
the strictly older one is leased first, ties to the earlier-inserted row,
and a lease does happen when a ready row exists.  Supports the C4 code-bug
verdict: the ordering engine (the `ORDER BY scheduled_at ASC LIMIT 1`
query) is implemented as claimed, but subsystem-created rows never pass
the Scan that follows it. -/
theorem lease_ordering (db : List Job) (now : Int)
    (hids : (db.map Job.id).Nodup)
    (hreadable : ∀ x ∈ db, x.error.isSome = true)
    (i j : Nat) (hi : i < db.length) (hj : j < db.length)
    (hA : isReady now (db.get ⟨i, hi⟩) = true)
    (hB : isReady now (db.get ⟨j, hj⟩) = true) :
    (∃ job tbl, leaseNextReady db now = TickResult.leased job tbl) ∧
    ∀ job tbl, leaseNextReady db now = TickResult.leased job tbl →
      ((db.get ⟨i, hi⟩).scheduledAt < (db.get ⟨j, hj⟩).scheduledAt →
        job ≠ db.get ⟨j, hj⟩ ∧ job.scheduledAt ≤ (db.get ⟨i, hi⟩).scheduledAt) ∧
      ((db.get ⟨i, hi⟩).scheduledAt = (db.get ⟨j, hj⟩).scheduledAt → i < j →
        job.id ≠ (db.get ⟨j, hj⟩).id) := by
  constructor
  · cases hsel : selectNext now db with
    | none =>
      have hnone := (selectNext_eq_none_iff now db).mp hsel _ (List.get_mem db i hi)
      rw [hA] at hnone
      exact Bool.noConfusion hnone
    | some b =>
      refine ⟨b, updateWhere db b.id (leaseStamp now), ?_⟩
      have hb := hreadable b (selectNext_mem hsel)
      simp [leaseNextReady, hsel, hb]
  · intro job tbl hlease
    have hsel : selectNext now db = some job := (leased_selectNext hlease).1
    have hminA := selectNext_min hsel _ (List.get_mem db i hi) hA
    constructor
    · intro hstrict
      refine ⟨?_, hminA⟩
      intro heq
      rw [heq] at hminA
      exact absurd (lt_of_le_of_lt hminA hstrict) (lt_irrefl _)
    · intro htie hij hid
      obtain ⟨p, hp, hgetp, hfirst⟩ := selectNext_first hsel
      have hpj : p = j := by
        have hmp : p < (db.map Job.id).length := by simpa using hp
        have hmj : j < (db.map Job.id).length := by simpa using hj
        have hmapids : (db.map Job.id).get ⟨p, hmp⟩ = (db.map Job.id).get ⟨j, hmj⟩ := by
          simp only [List.get_eq_getElem, List.getElem_map]
          rw [show db[p] = job from hgetp]
          simpa [List.get_eq_getElem] using hid
        exact Fin.mk.inj_iff.mp (hids.get_inj_iff.mp hmapids)
      subst hpj
      have hgj : db.get ⟨p, hj⟩ = job := by simpa [List.get_eq_getElem] using hgetp
      have hlt := hfirst i hi hij (by simpa [List.get_eq_getElem] using hA)
      rw [← hgj] at hlt
      simp only [List.get_eq_getElem] at hlt htie
      rw [← htie] at hlt
      exact absurd hlt (lt_irrefl _)

/-- C4: the claim says that of two ready pending jobs the strictly older
one is leased first (ties to the earlier-inserted row).  The ordering
engine is implemented as claimed — the query selects the older row A — but
for rows this subsystem creates the lease never completes: both rows carry
a NULL `error` column, the Scan of the selected row fails, and neither A
nor B is ever leased, on this tick or any later one.  Evaluated at two
freshly enqueued ready jobs A (`scheduled_at` 3, inserted first) and B
(`scheduled_at` 4). -/
theorem ordering_never_engages_for_fresh_jobs :
    selectNext 5 [freshJob 1 "t" "p" 3, freshJob 2 "u" "q" 4] =
      some (freshJob 1 "t" "p" 3) ∧
    leaseNextReady [freshJob 1 "t" "p" 3, freshJob 2 "u" "q" 4] 5 =
      TickResult.scanError ∧
    ∀ k, runTicks (fun _ => none) [freshJob 1 "t" "p" 3, freshJob 2 "u" "q" 4] 5 k =
      [freshJob 1 "t" "p" 3, freshJob 2 "u" "q" 4] := by
  refine ⟨rfl, rfl, ?_⟩
  apply runTicks_no_readable
  intro x hx
  rcases List.mem_cons.mp hx with rfl | hx2
  · rfl
  · rw [List.mem_singleton.mp hx2]
    rfl

/-- C5: a leased job whose type has no registered handler is marked
`'failed'` with error `"no handler registered for job type: X"` without any
handler invocation (the `none` branch of the registry lookup reaches
`markJobFailed` directly) and without retry: its row ends the tick
terminally failed with `attempts` exactly one more than before lease, so a
first lease leaves `attempts = 1`.  The hypothesis is exactly that this
job was leased (the claim's own precondition): the tick's lease stage
returned `leased`. -/
theorem unknown_type_permanent_failure (handlers : Handlers) (db : List Job)
    (now : Int) (job : Job) (tbl : List Job)
    (hids : (db.map Job.id).Nodup)
    (hlease : leaseNextReady db now = TickResult.leased job tbl)
    (hh : handlers job.type = none) :
    processNextJob handlers db now =
      updateWhere db job.id
        (fun x => failStamp ("no handler registered for job type: " ++ job.type) now (leaseStamp now x)) ∧
    (processNextJob handlers db now).find? (fun x => x.id == job.id) =
      some (failStamp ("no handler registered for job type: " ++ job.type) now (leaseStamp now job)) ∧
    (failStamp ("no handler registered for job type: " ++ job.type) now (leaseStamp now job)).status = "failed" ∧
    (failStamp ("no handler registered for job type: " ++ job.type) now (leaseStamp now job)).error = some ("no handler registered for job type: " ++ job.type) ∧
    (failStamp ("no handler registered for job type: " ++ job.type) now (leaseStamp now job)).attempts = job.attempts + 1 ∧
    (job.attempts = 0 →
      (failStamp ("no handler registered for job type: " ++ job.type) now (leaseStamp now job)).attempts = 1) := by
  obtain ⟨hsel, herr, -⟩ := leased_selectNext hlease
  have heq : processNextJob handlers db now =
      updateWhere db job.id
        (fun x => failStamp ("no handler registered for job type: " ++ job.type) now (leaseStamp now x)) := by
    rw [processNextJob_eq_dispatch hsel herr]
    show dispatch handlers job (updateWhere db job.id (leaseStamp now)) now = _
    rw [show dispatch handlers job (updateWhere db job.id (leaseStamp now)) now =
        markJobFailed (updateWhere db job.id (leaseStamp now)) job.id
          ("no handler registered for job type: " ++ job.type) now from by
      simp [dispatch, hh]]
    unfold markJobFailed
    rw [updateWhere_updateWhere (g := leaseStamp now) (fun x => rfl)]
  refine ⟨heq, ?_, rfl, rfl, rfl, fun ha => by simp [failStamp, leaseStamp, ha]⟩
  rw [heq]
  exact find?_updateWhere hids (selectNext_mem hsel) (fun x => rfl)

/-- Witness for C5 on a concrete one-row table (a leasable row: its `error`
column is non-NULL, e.g. from an earlier retry) with no registered
handlers. -/
theorem unknown_type_permanent_failure_witness :
    processNextJob (fun _ => none) [{ id := 1, type := "t", payload := "p", status := "pending", attempts := 0, maxAttempts := 3, scheduledAt := 1, startedAt := none, completedAt := none, error := some "" }] 5 =
      [{ id := 1, type := "t", payload := "p", status := "failed", attempts := 1, maxAttempts := 3, scheduledAt := 1, startedAt := some 5, completedAt := some 5, error := some "no handler registered for job type: t" }] := by
  have h := (unknown_type_permanent_failure (fun _ => none) [{ id := 1, type := "t", payload := "p", status := "pending", attempts := 0, maxAttempts := 3, scheduledAt := 1, startedAt := none, completedAt := none, error := some "" }] 5 { id := 1, type := "t", payload := "p", status := "pending", attempts := 0, maxAttempts := 3, scheduledAt := 1, startedAt := none, completedAt := none, error := some "" } _ (by decide) rfl rfl).1
  rw [h]
  rfl

/-- C3: a leased job whose handler fails with attempts remaining
(incremented attempts `< max_attempts`) is rescheduled as `'pending'` with
`scheduled_at = now + delay`, the delay given by the fixed schedule indexed
by the incremented attempts count: 60 s for the 1st retry, 300 s for the
2nd, 1800 s for the 3rd and every later one.  The hypothesis is exactly
that this job was leased (the claim's own precondition): the tick's lease
stage returned `leased`. -/
theorem retry_backoff_schedule (handlers : Handlers) (db : List Job)
    (now : Int) (job : Job) (tbl : List Job) (h : Handler) (e : String)
    (hids : (db.map Job.id).Nodup)
    (hlease : leaseNextReady db now = TickResult.leased job tbl)
    (hh : handlers job.type = some h)
    (he : h job.payload = some e)
    (hlt : job.attempts + 1 < job.maxAttempts) :
    processNextJob handlers db now =
      updateWhere db job.id
        (fun x => retryStamp e (now + retryDelay (job.attempts + 1)) (leaseStamp now x)) ∧
    (processNextJob handlers db now).find? (fun x => x.id == job.id) =
      some (retryStamp e (now + retryDelay (job.attempts + 1)) (leaseStamp now job)) ∧
    (retryStamp e (now + retryDelay (job.attempts + 1)) (leaseStamp now job)).status = "pending" ∧
    (retryStamp e (now + retryDelay (job.attempts + 1)) (leaseStamp now job)).scheduledAt = now + retryDelay (job.attempts + 1) ∧
    retryDelay 1 = 60 ∧ retryDelay 2 = 300 ∧ (∀ a, 3 ≤ a → retryDelay a = 1800) := by
  obtain ⟨hsel, herr, -⟩ := leased_selectNext hlease
  have hread := readAttempts_after_lease now hids (selectNext_mem hsel)
  have heq : processNextJob handlers db now =
      updateWhere db job.id
        (fun x => retryStamp e (now + retryDelay (job.attempts + 1)) (leaseStamp now x)) := by
    rw [processNextJob_eq_dispatch hsel herr]
    show dispatch handlers job (updateWhere db job.id (leaseStamp now)) now = _
    rw [show dispatch handlers job (updateWhere db job.id (leaseStamp now)) now =
        updateWhere (updateWhere db job.id (leaseStamp now)) job.id
          (retryStamp e (now + retryDelay (job.attempts + 1))) from by
      simp [dispatch, hh, he, Nat.not_le.mpr hlt, hread,
        retryJob_some_eq (Nat.le_add_left 1 job.attempts)]]
    rw [updateWhere_updateWhere (g := leaseStamp now) (fun x => rfl)]
  refine ⟨heq, ?_, rfl, rfl, rfl, rfl, ?_⟩
  · rw [heq]
    exact find?_updateWhere hids (selectNext_mem hsel) (fun x => rfl)
  · intro a ha
    unfold retryDelay
    rw [if_neg (by omega), if_neg (by omega)]

/-- Witness for C3: first failure of a fresh job (attempts 1 after lease)
lands the retry at `now + 60`. -/
theorem retry_backoff_schedule_witness :
    processNextJob (fun t => if t = "t" then some (fun _ => some "boom") else none) [{ id := 1, type := "t", payload := "p", status := "pending", attempts := 0, maxAttempts := 3, scheduledAt := 1, startedAt := none, completedAt := none, error := some "" }] 5 =
      [{ id := 1, type := "t", payload := "p", status := "pending", attempts := 1, maxAttempts := 3, scheduledAt := 65, startedAt := some 5, completedAt := none, error := some "boom" }] := by
  have h := (retry_backoff_schedule
    (fun t => if t = "t" then some (fun _ => some "boom") else none)
    [{ id := 1, type := "t", payload := "p", status := "pending", attempts := 0, maxAttempts := 3, scheduledAt := 1, startedAt := none, completedAt := none, error := some "" }]
    5 { id := 1, type := "t", payload := "p", status := "pending", attempts := 0, maxAttempts := 3, scheduledAt := 1, startedAt := none, completedAt := none, error := some "" }
    _ (fun _ => some "boom") "boom" (by decide) rfl rfl rfl (by decide)).1
  rw [h]
  rfl

/-- C7 counterexample: the claim says that if `Stop` is called mid-tick
before a lease occurs, no job is picked up after `Stop` returns control.
In the code the poll loop checks `jp.running` only at the top of the loop
and `processNextJob` never checks it, so a tick already fired (or armed)
when `Stop` returns still runs to completion and leases a job.  Concretely:
the loop has entered the ticker case but not yet leased (`pc = inTick`),
`Stop` runs and returns (`stopCall`), then the tick body completes
(`finishTick`) — one tick executes and the pending job is leased (its
`attempts` goes from 1 to 2 and it leaves `pending`) after `Stop`
returned.  The row is leasable (non-NULL `error` column, as a row
rescheduled by an earlier retry has). -/
theorem stop_midtick_still_leases :
    (runLoop (fun _ => none)
        { running := true, pc := LoopPC.inTick, tickNow := 0,
          db := [{ id := 1, type := "t", payload := "p", status := "pending", attempts := 1, maxAttempts := 3, scheduledAt := 0, startedAt := some 0, completedAt := none, error := some "e" }],
          ticksDone := 0 }
        [LoopEvent.stopCall, LoopEvent.finishTick]).ticksDone = 1 ∧
    (runLoop (fun _ => none)
        { running := true, pc := LoopPC.inTick, tickNow := 0,
          db := [{ id := 1, type := "t", payload := "p", status := "pending", attempts := 1, maxAttempts := 3, scheduledAt := 0, startedAt := some 0, completedAt := none, error := some "e" }],
          ticksDone := 0 }
        [LoopEvent.stopCall, LoopEvent.finishTick]).db.map Job.attempts = [2] ∧
    (runLoop (fun _ => none)
        { running := true, pc := LoopPC.inTick, tickNow := 0,
          db := [{ id := 1, type := "t", payload := "p", status := "pending", attempts := 1, maxAttempts := 3, scheduledAt := 0, startedAt := some 0, completedAt := none, error := some "e" }],
          ticksDone := 0 }
        [LoopEvent.stopCall, LoopEvent.finishTick]).db.map Job.status = ["failed"] := by
  refine ⟨rfl, rfl, rfl⟩

/-- Every interleaving step taken from a stopped loop keeps it stopped and
never increases `ticksDone` plus the one-tick allowance of a
blocked/in-tick program counter. -/
theorem loopStep_stopped (handlers : Handlers) (s : LoopState) (e : LoopEvent)
    (hstop : s.running = false) :
    (loopStep handlers s e).running = false ∧
    (loopStep handlers s e).ticksDone +
        (if (loopStep handlers s e).pc = LoopPC.blocked ∨
            (loopStep handlers s e).pc = LoopPC.inTick then 1 else 0) ≤
      s.ticksDone +
        (if s.pc = LoopPC.blocked ∨ s.pc = LoopPC.inTick then 1 else 0) := by
  cases e with
  | stopCall => exact ⟨rfl, le_refl _⟩
  | tickFire now =>
    by_cases hpc : s.pc = LoopPC.blocked
    · refine ⟨by simp [loopStep, hpc, hstop], ?_⟩
      simp [loopStep, hpc]
    · refine ⟨by simp [loopStep, hpc, hstop], ?_⟩
      simp [loopStep, hpc]
  | finishTick =>
    by_cases hpc : s.pc = LoopPC.inTick
    · refine ⟨by simp [loopStep, hpc, hstop], ?_⟩
      simp [loopStep, hpc]
    · refine ⟨by simp [loopStep, hpc, hstop], ?_⟩
      simp [loopStep, hpc]
  | loopCheck =>
    by_cases hpc : s.pc = LoopPC.checkCond
    · refine ⟨by simp [loopStep, hpc, hstop], ?_⟩
      simp [loopStep, hpc, hstop]
    · refine ⟨by simp [loopStep, hpc, hstop], ?_⟩
      simp [loopStep, hpc]

/-- C7 amended: once `Stop` has set the running flag to false, at most one
further tick body executes in any continuation of the loop — the tick
already armed or in flight — and that tick is never preempted (`finishTick`
applies the whole `processNextJob` body, handler included, atomically);
after it the loop can only exit at its next condition check. -/
theorem stop_bounds_future_ticks (handlers : Handlers) (s : LoopState)
    (hstop : s.running = false) (events : List LoopEvent) :
    (runLoop handlers s events).ticksDone ≤ s.ticksDone +
      (if s.pc = LoopPC.blocked ∨ s.pc = LoopPC.inTick then 1 else 0) := by
  induction events generalizing s with
  | nil => exact Nat.le_add_right _ _
  | cons e es ih =>
    have hstep := loopStep_stopped handlers s e hstop
    exact le_trans (ih (loopStep handlers s e) hstep.1) hstep.2

/-- Witness for C7 (amended): from a stopped loop blocked in its `select`,
a full further schedule of events performs at most one tick. -/
theorem stop_bounds_future_ticks_witness :
    ({ running := false, pc := LoopPC.blocked, tickNow := 0, db := [], ticksDone := 0 } : LoopState).running = false ∧
    (runLoop (fun _ => none)
        { running := false, pc := LoopPC.blocked, tickNow := 0, db := [], ticksDone := 0 }
        [LoopEvent.tickFire 3, LoopEvent.finishTick, LoopEvent.loopCheck,
         LoopEvent.tickFire 9, LoopEvent.finishTick]).ticksDone ≤ 0 + 1 := by
  exact ⟨rfl, stop_bounds_future_ticks (fun _ => none)
    { running := false, pc := LoopPC.blocked, tickNow := 0, db := [], ticksDone := 0 }
    rfl
    [LoopEvent.tickFire 3, LoopEvent.finishTick, LoopEvent.loopCheck,
     LoopEvent.tickFire 9, LoopEvent.finishTick]⟩

/-- C8: the claim says no store I/O error ever crashes the process and that
every execution path in `retryJob` — including when the attempts re-read
fails — stays within the bounds of the backoff array.  The code refutes
this: `retryJob` ignores the `Scan` error of its
`SELECT attempts FROM jobs WHERE id = ?` re-read, so a failed read leaves
`attempts = 0`, passes the `attempts <= len(backoffMinutes)` guard, and
evaluates `backoffMinutes[attempts-1] = backoffMinutes[-1]` — an
index-out-of-range panic (modelled as `none`) that crashes the process. -/
theorem retryJob_failed_reread_panics (db : List Job) (jobID : Nat)
    (errMsg : String) (now : Int) :
    retryJob db jobID errMsg none now = none := rfl

/-- C9: `retryJob` on a successful re-read (the attempts count `a ≥ 1` as
already incremented by the lease) updates only `status` (to `'pending'`),
`scheduled_at` (to the next-attempt time) and `error` (to the message) of the
matching row; `attempts`, `type`, `payload`, `max_attempts` and `started_at`
are unchanged, and every other row is untouched. -/
theorem retryJob_frame (db : List Job) (jobID : Nat) (errMsg : String)
    (a : Nat) (now : Int) (ha : 1 ≤ a) :
    ∃ db2, retryJob db jobID errMsg (some a) now = some db2 ∧
      db2.length = db.length ∧
      ∀ i, (hi : i < db.length) → (hi2 : i < db2.length) →
        ((db.get ⟨i, hi⟩).id ≠ jobID → db2.get ⟨i, hi2⟩ = db.get ⟨i, hi⟩) ∧
        ((db.get ⟨i, hi⟩).id = jobID →
          db2.get ⟨i, hi2⟩ = { db.get ⟨i, hi⟩ with status := "pending", scheduledAt := now + retryDelay a, error := some errMsg } ∧
          (db2.get ⟨i, hi2⟩).attempts = (db.get ⟨i, hi⟩).attempts ∧
          (db2.get ⟨i, hi2⟩).type = (db.get ⟨i, hi⟩).type ∧
          (db2.get ⟨i, hi2⟩).payload = (db.get ⟨i, hi⟩).payload ∧
          (db2.get ⟨i, hi2⟩).maxAttempts = (db.get ⟨i, hi⟩).maxAttempts ∧
          (db2.get ⟨i, hi2⟩).startedAt = (db.get ⟨i, hi⟩).startedAt ∧
          (db2.get ⟨i, hi2⟩).status = "pending" ∧
          (db2.get ⟨i, hi2⟩).scheduledAt = now + retryDelay a ∧
          (db2.get ⟨i, hi2⟩).error = some errMsg) := by
  refine ⟨_, retryJob_some_eq ha, updateWhere_length db jobID _, ?_⟩
  intro i hi hi2
  constructor
  · intro hne
    rw [updateWhere_get db jobID _ i hi hi2, if_neg hne]
  · intro heq
    rw [updateWhere_get db jobID _ i hi hi2, if_pos heq]
    exact ⟨rfl, rfl, rfl, rfl, rfl, rfl, rfl, rfl, rfl⟩

/-- Witness for C9 at a concrete table: one matching and one other row. -/
theorem retryJob_frame_witness :
    1 ≤ 1 ∧
    ∃ db2, retryJob [{ id := 1, type := "t", payload := "p", status := "running", attempts := 1, maxAttempts := 3, scheduledAt := 0, startedAt := some 0, completedAt := none, error := some "" }, { id := 2, type := "u", payload := "q", status := "pending", attempts := 0, maxAttempts := 3, scheduledAt := 9, startedAt := none, completedAt := none, error := none }] 1 "boom" (some 1) 100 = some db2 ∧
      db2.length = 2 := by
  obtain ⟨db2, h1, h2, _⟩ :=
    retryJob_frame [{ id := 1, type := "t", payload := "p", status := "running", attempts := 1, maxAttempts := 3, scheduledAt := 0, startedAt := some 0, completedAt := none, error := some "" }, { id := 2, type := "u", payload := "q", status := "pending", attempts := 0, maxAttempts := 3, scheduledAt := 9, startedAt := none, completedAt := none, error := none }] 1 "boom" 1 100 (by decide)
  exact ⟨by decide, db2, h1, h2.trans rfl⟩

/-- C10: when the payload fails to serialize, `EnqueueJob` and
`EnqueueDelayedJob` return the serialization error and insert no row: the
jobs table is returned unchanged. -/
theorem enqueue_marshal_error (db : List Job) (nextId : Nat) (jobType : String)
    (e : String) (delay now : Int) :
    EnqueueJob db nextId jobType (Except.error e) now = (some e, db) ∧
    EnqueueDelayedJob db nextId jobType (Except.error e) delay now = (some e, db) :=
  ⟨rfl, rfl⟩

end JobsSpec
